import Mathlib

/-!
Verification of `wikidump_auto.py`, a scheduled maintenance utility with four
sequential stages (link resolver, fetcher, submitter, pruner).

The Python source is shallowly embedded:
* strings are Lean `String`s, manipulated through their `List Char` data;
* the two regular expressions (`TORRENT_NAME_RE`, `DUMP_FILE_RE`) are embedded
  as executable matchers with Python `re` semantics: `.` matches any character
  except a newline, `$` matches at the end of the string or just before a
  trailing newline, `re.I` is modelled by lowercasing the subject and writing
  the (lower-case) literals of the pattern, `re.search` tries every start
  position while `re.match` is anchored at the start;
* filesystem and remote-API effects are explicit state (a map from paths to
  file contents, a set of existing directories, a list of submitted jobs)
  together with a trace of the calls performed;
* exceptions are `Except` values, `logging` output is modelled as returned
  data (the pruned-file count, the logged error message of `main`).
-/

namespace WikidumpAuto

/-- Lower-casing of a string's characters; models Python `re.IGNORECASE`
(equivalently, lower-casing the subject before matching the lower-case
pattern literals; the inputs of interest are ASCII). -/
def lowerStr (s : String) : List Char :=
  s.data.map Char.toLower

/-- `dropLit lit cs` consumes the literal `lit` at the start of `cs`,
returning the remainder, or `none` when `lit` is not a prefix of `cs`. -/
def dropLit : List Char → List Char → Option (List Char)
  | [], cs => some cs
  | _ :: _, [] => none
  | p :: ps, c :: cs => if p = c then dropLit ps cs else none

/-- `dropDigits n cs` consumes exactly `n` decimal digits (`\d{n}`). -/
def dropDigits : Nat → List Char → Option (List Char)
  | 0, cs => some cs
  | _ + 1, [] => none
  | n + 1, c :: cs => if c.isDigit then dropDigits n cs else none

/-- `endTail lit cs` models the regex fragment `LIT$` applied to the whole
remainder `cs`: in Python, `$` matches at the end of the string or just
before a newline that ends the string. -/
def endTail (lit : List Char) (cs : List Char) : Bool :=
  cs == lit || cs == lit ++ ['\n']

/-- `dotStarThen k cs` models the regex fragment `.*` followed by a
continuation `k`: some newline-free prefix of `cs` is consumed by `.*` and
`k` accepts the remainder.  (`.` does not match `\n` without `re.DOTALL`.) -/
def dotStarThen (k : List Char → Bool) : List Char → Bool
  | [] => k []
  | c :: rest => k (c :: rest) || (c != '\n' && dotStarThen k rest)

/-- `searchFrom p cs` models `re.search`: the pattern `p` may start at any
position of the subject `cs`. -/
def searchFrom (p : List Char → Bool) : List Char → Bool
  | [] => p []
  | c :: rest => p (c :: rest) || searchFrom p rest

/-- The fragment `\.torrent$` preceded by `.*`. -/
def torrentTail (r : List Char) : Bool :=
  dotStarThen (endTail ".torrent".data) r

/-- The fragment `pages-articles-multistream.*\.torrent$`. -/
def torrentMid (r : List Char) : Bool :=
  match dropLit "pages-articles-multistream".data r with
  | none => false
  | some r3 => torrentTail r3

/-- The pattern `enwiki-.*pages-articles-multistream.*\.torrent$` matched at
a fixed start position (source line 34, `TORRENT_NAME_RE`). -/
def torrentCore (cs : List Char) : Bool :=
  match dropLit "enwiki-".data cs with
  | none => false
  | some r1 => dotStarThen torrentMid r1

/-- `TORRENT_NAME_RE.search(href)` as a Boolean: case-insensitive search for
`enwiki-.*pages-articles-multistream.*\.torrent$` anywhere in `href`. -/
def torrentNameSearch (s : String) : Bool :=
  searchFrom torrentCore (lowerStr s)

/-- The pattern `enwiki-\d{8}-pages-articles-multistream.*\.bz2$` matched at
a fixed start position (source line 35, `DUMP_FILE_RE`). -/
def dumpCore (cs : List Char) : Bool :=
  match dropLit "enwiki-".data cs with
  | none => false
  | some r1 =>
      match dropDigits 8 r1 with
      | none => false
      | some r2 =>
          match dropLit "-pages-articles-multistream".data r2 with
          | none => false
          | some r3 => dotStarThen (endTail ".bz2".data) r3

/-- `DUMP_FILE_RE.match(name)` as a Boolean: `re.match` anchors the pattern
at the start of the subject (but not at its end beyond the pattern's `$`). -/
def dumpFileMatch (s : String) : Bool :=
  dumpCore (lowerStr s)

/-- Python `s.startswith(p)`. -/
def pyStartsWith (s p : String) : Bool :=
  p.data.isPrefixOf s.data

/-- Python `s.endswith(p)` (case sensitive, as in the source). -/
def pyEndsWith (s p : String) : Bool :=
  decide (p.data <:+ s.data)

/-- `os.path.basename`: everything after the last `/` of the path. -/
def basename (p : String) : String :=
  ⟨p.data.foldl (fun acc c => if c = '/' then [] else acc ++ [c]) []⟩

/-!  ## Stage 1 — link resolver (`latest_torrent_url`, source lines 42-56)

The HTML page is embedded as the list of `href` attributes of its `<a>`
elements, in document order, which is exactly what
`soup.find_all("a", href=True)` iterates over.  The single network read and
the `logging.info` call have no bearing on the returned value. -/

/-- The error message of the `RuntimeError` raised on source line 56. -/
def noLinkMsg : String :=
  "Meta‑Wiki page did not contain expected enwiki torrent link."

/-- The body of the `for` loop of `latest_torrent_url`: the first matching
href is resolved to an absolute URL and returned; the `RuntimeError` after
the loop becomes `Except.error`. -/
def latest_torrent_url : List String → Except String String
  | [] => .error noLinkMsg
  | href :: rest =>
      if torrentNameSearch href then
        .ok (if pyStartsWith href "//" then "https:" ++ href
             else if pyStartsWith href "/" then "https://meta.wikimedia.org" ++ href
             else href)
      else latest_torrent_url rest

/-!  ## Stage 2 — fetcher (`download_torrent`, source lines 59-67)

The temporary-directory filesystem is a map from paths to file contents;
the HTTP exchange is embedded as the response the server gives for the
requested URL.  `requests` follows redirects for `GET`, so `r` is the final
response; `r.raise_for_status()` raises `HTTPError` exactly for status
codes in `[400, 600)` (4xx client errors and 5xx server errors).  The
source opens `fn` with mode `"wb"` (create/truncate) *before* calling
`raise_for_status`, and `iter_content` writes the whole body afterwards. -/

/-- An HTTP response: final status code and full body. -/
structure HttpResponse where
  status : Nat
  body : String
deriving DecidableEq

/-- A flat filesystem: `some c` is a file with contents `c`. -/
def Fs : Type := String → Option String

/-- `download_torrent(url)` given the temp dir, the server's response and
the current temp filesystem; returns the new filesystem together with the
returned path or the raised `HTTPError`. -/
def download_torrent (tmp url : String) (resp : HttpResponse) (fs : Fs) :
    Fs × Except String String :=
  let fn := tmp ++ "/" ++ basename url
  let fsOpened : Fs := fun p => if p = fn then some "" else fs p
  if 400 ≤ resp.status ∧ resp.status < 600 then
    (fsOpened, .error "HTTPError")
  else
    ((fun p => if p = fn then some resp.body else fs p), .ok fn)

/-!  ## Stage 3 — submitter (`push_to_qb`, source lines 70-89)

The qBittorrent client and the local filesystem are embedded as explicit
state: the set of existing directories and the list of jobs the remote API
manages.  The calls made against the outside world are recorded in order.
`qbt.auth_log_in()` raises `LoginFailed` on rejected credentials;
`save_dir.mkdir(parents=True, exist_ok=True)` creates the directory and
every missing ancestor; `torrents_add` is called with
`use_auto_torrent_management=False` and `paused=False` (constants that the
claims do not touch).  A `save_dir` existing as a non-directory is not
modelled: `is_dir()` is membership in the directory set. -/

/-- Splitting a character list on a separator (used for path components). -/
def splitChars (sep : Char) : List Char → List (List Char)
  | [] => [[]]
  | c :: rest =>
      match splitChars sep rest with
      | [] => [[]]
      | g :: gs => if c = sep then [] :: g :: gs else (c :: g) :: gs

/-- The cumulative joins of a component list: for `["", "mnt", "wiki"]`
this is `["", "/mnt", "/mnt/wiki"]`. -/
def cumulativePrefixes : List (List Char) → List (List Char)
  | [] => []
  | c :: rest => c :: (cumulativePrefixes rest).map (fun q => c ++ '/' :: q)

/-- The chain of directories `Path(p).mkdir(parents=True)` creates when
none of them exists: every non-empty cumulative prefix of `p`'s components,
ending with `p` itself. -/
def ancestors (p : String) : List String :=
  ((cumulativePrefixes (splitChars '/' p.data)).map String.mk).filter
    (fun d => d ≠ "")

/-- A call performed by `push_to_qb` against the remote API or the
filesystem, in the order the source makes them. -/
inductive QbCall where
  | authLogIn : QbCall
  | mkdirParents : String → QbCall
  | torrentsAdd : String → String → String → QbCall
deriving DecidableEq

/-- The state `push_to_qb` can affect: existing directories of the local
filesystem and the jobs managed by the remote API
(`torrent file, save path, category`). -/
structure QbState where
  dirs : List String
  jobs : List (String × String × String)
deriving DecidableEq

/-- `push_to_qb(torrent_path, …)`: log in (raising on failure), create the
save directory if it is not one, add the torrent.  Returns the new state,
the trace of calls made, and the outcome. -/
def push_to_qb (authOk : Bool) (torrentPath saveDir category : String)
    (st : QbState) : QbState × List QbCall × Except String Unit :=
  if authOk then
    if saveDir ∈ st.dirs then
      (⟨st.dirs, st.jobs ++ [(torrentPath, saveDir, category)]⟩,
       [.authLogIn, .torrentsAdd torrentPath saveDir category], .ok ())
    else
      (⟨st.dirs ++ (ancestors saveDir).filter (fun d => d ∉ st.dirs),
        st.jobs ++ [(torrentPath, saveDir, category)]⟩,
       [.authLogIn, .mkdirParents saveDir,
        .torrentsAdd torrentPath saveDir category], .ok ())
  else
    (st, [.authLogIn], .error "LoginFailed")

/-!  ## Stage 4 — pruner (`prune_old_dumps`, source lines 92-108)

The directory is embedded as the list of its direct children as seen by
`directory.iterdir()`: each entry carries its name, whether it is a regular
file (`file.is_file()`), and its last-modification time.  Times are whole
seconds since the epoch; `datetime.now() - timedelta(days=keep_days)`
subtracts `keep_days * 86400` seconds.  The function returns the surviving
entries and the removed-file count that source line 108 logs. -/

/-- A direct child of the save directory. -/
structure DirEntry where
  name : String
  isRegularFile : Bool
  mtime : Int
deriving DecidableEq

/-- The body of the `for` loop of `prune_old_dumps`: `True` exactly when
the entry reaches `file.unlink` (source line 106). -/
def shouldPrune (cutoff : Int) (e : DirEntry) : Bool :=
  e.isRegularFile && dumpFileMatch e.name && !(pyEndsWith e.name ".!qB")
    && decide (e.mtime < cutoff)

/-- The loop of `prune_old_dumps` over the remaining entries. -/
def pruneGo (cutoff : Int) : List DirEntry → List DirEntry × Nat
  | [] => ([], 0)
  | e :: rest =>
      let r := pruneGo cutoff rest
      if shouldPrune cutoff e then (r.1, r.2 + 1) else (e :: r.1, r.2)

/-- `prune_old_dumps(directory, keep_days)` at time `now` (seconds):
returns the retained entries and the logged count of removed files. -/
def prune_old_dumps (now keepDays : Int) (entries : List DirEntry) :
    List DirEntry × Nat :=
  pruneGo (now - keepDays * 86400) entries

/-- The pruner with the `file.name.endswith(".!qB")` branch (source lines
101-103) deleted; used to show that branch is unreachable. -/
def pruneGoNoQb (cutoff : Int) : List DirEntry → List DirEntry × Nat
  | [] => ([], 0)
  | e :: rest =>
      let r := pruneGoNoQb cutoff rest
      if e.isRegularFile && dumpFileMatch e.name && decide (e.mtime < cutoff)
      then (r.1, r.2 + 1) else (e :: r.1, r.2)

/-!  ## Top level (`main`, source lines 115-139)

The `try` block of `main` runs the four stages in order and returns `1`
from the `except` clause (logging the exception) or `0` on success.  The
outside world the stages interact with is collected in one structure; the
result records the exit code, which stages ran, and the logged error. -/

/-- The four stages, in source order. -/
inductive Stage where
  | resolver : Stage
  | fetcher : Stage
  | submitter : Stage
  | pruner : Stage
deriving DecidableEq

/-- Outcome of one invocation of `main`. -/
structure RunResult where
  exitCode : Nat
  executed : List Stage
  loggedError : Option String
deriving DecidableEq

/-- The outside world of one run: the index page's hrefs, the HTTP response
for each URL, the temp filesystem, whether the WebUI credentials are
accepted, the qBittorrent/savedir state, the save directory's children and
the current time. -/
structure World where
  hrefs : List String
  resp : String → HttpResponse
  tmpFs : Fs
  authOk : Bool
  qb : QbState
  dirEntries : List DirEntry
  now : Int

/-- The `try`/`except` of `main` (source lines 130-139): stage `n + 1` runs
only if stage `n` returned normally, any exception is logged and turns into
exit code `1`, and a fully successful run exits `0`.  In this embedding the
pruner itself never raises (`unlink(missing_ok=True)` swallows the only
per-file error). -/
def mainRun (w : World) (tmp saveDir category : String) (retention : Int) :
    RunResult :=
  match latest_torrent_url w.hrefs with
  | .error e => ⟨1, [.resolver], some e⟩
  | .ok url =>
      match (download_torrent tmp url (w.resp url) w.tmpFs).2 with
      | .error e => ⟨1, [.resolver, .fetcher], some e⟩
      | .ok torrentPath =>
          match (push_to_qb w.authOk torrentPath saveDir category w.qb).2.2 with
          | .error e => ⟨1, [.resolver, .fetcher, .submitter], some e⟩
          | .ok _ =>
              let _ := prune_old_dumps w.now retention w.dirEntries
              ⟨0, [.resolver, .fetcher, .submitter, .pruner], none⟩

/-!  ## Characterizations of the embedded regex combinators -/

theorem dropLit_eq_some (p cs r : List Char) :
    dropLit p cs = some r ↔ cs = p ++ r := by
  induction p generalizing cs with
  | nil => simp [dropLit]
  | cons x xs ih =>
      cases cs with
      | nil => simp [dropLit]
      | cons c cs' =>
          by_cases hx : x = c
          · subst hx
            simpa [dropLit] using ih cs'
          · simp only [dropLit, if_neg hx]
            constructor
            · intro h; exact absurd h (by simp)
            · intro h
              injection h with h1 h2
              exact absurd h1.symm hx

theorem dotStarThen_eq_true (k : List Char → Bool) (cs : List Char) :
    dotStarThen k cs = true ↔
      ∃ m r, cs = m ++ r ∧ (∀ c ∈ m, c ≠ '\n') ∧ k r = true := by
  induction cs with
  | nil =>
      simp only [dotStarThen]
      constructor
      · intro h; exact ⟨[], [], rfl, by simp, h⟩
      · rintro ⟨m, r, hmr, _, hk⟩
        rcases List.append_eq_nil.mp hmr.symm with ⟨hm, hr⟩
        subst hm; subst hr; exact hk
  | cons c rest ih =>
      simp only [dotStarThen, Bool.or_eq_true, Bool.and_eq_true, bne_iff_ne, ne_eq]
      constructor
      · rintro (h | ⟨hc, h⟩)
        · exact ⟨[], c :: rest, rfl, by simp, h⟩
        · rcases ih.mp h with ⟨m, r, hmr, hm, hk⟩
          exact ⟨c :: m, r, by simp [hmr], by simpa [hc] using hm, hk⟩
      · rintro ⟨m, r, hmr, hm, hk⟩
        cases m with
        | nil =>
            have hr : r = c :: rest := by simpa using hmr.symm
            exact Or.inl (hr ▸ hk)
        | cons m0 ms =>
            right
            have hcons : c = m0 ∧ rest = ms ++ r := by simpa using hmr
            obtain ⟨hm0, hrest⟩ := hcons
            subst hm0
            exact ⟨hm c (by simp), ih.mpr ⟨ms, r, hrest, fun x hx => hm x (by simp [hx]), hk⟩⟩

theorem searchFrom_eq_true (p : List Char → Bool) (cs : List Char) :
    searchFrom p cs = true ↔ ∃ pre r, cs = pre ++ r ∧ p r = true := by
  induction cs with
  | nil =>
      simp only [searchFrom]
      constructor
      · intro h; exact ⟨[], [], rfl, h⟩
      · rintro ⟨pre, r, hmr, hk⟩
        rcases List.append_eq_nil.mp hmr.symm with ⟨hm, hr⟩
        subst hm; subst hr; exact hk
  | cons c rest ih =>
      simp only [searchFrom, Bool.or_eq_true]
      constructor
      · rintro (h | h)
        · exact ⟨[], c :: rest, rfl, h⟩
        · rcases ih.mp h with ⟨pre, r, hmr, hk⟩
          exact ⟨c :: pre, r, by simp [hmr], hk⟩
      · rintro ⟨pre, r, hmr, hk⟩
        cases pre with
        | nil =>
            have hr : r = c :: rest := by simpa using hmr.symm
            exact Or.inl (hr ▸ hk)
        | cons p0 ps =>
            right
            have hcons : c = p0 ∧ rest = ps ++ r := by simpa using hmr
            exact ih.mpr ⟨ps, r, hcons.2, hk⟩

theorem endTail_eq_true (lit cs : List Char) :
    endTail lit cs = true ↔ cs = lit ∨ cs = lit ++ ['\n'] := by
  simp [endTail]

theorem dropDigits_sub (n : Nat) (cs r : List Char) :
    dropDigits n cs = some r → ∃ d, cs = d ++ r := by
  induction n generalizing cs with
  | zero =>
      intro h
      have : cs = r := by simpa [dropDigits] using h
      exact ⟨[], by simp [this]⟩
  | succ n ih =>
      intro h
      cases cs with
      | nil => simp [dropDigits] at h
      | cons c cs' =>
          by_cases hc : c.isDigit
          · rcases ih cs' (by simpa [dropDigits, hc] using h) with ⟨d, hd⟩
            exact ⟨c :: d, by simp [hd]⟩
          · simp [dropDigits, hc] at h

theorem torrentTail_eq_true (r : List Char) :
    torrentTail r = true ↔
      ∃ m tail, r = m ++ ".torrent".data ++ tail ∧ (∀ c ∈ m, c ≠ '\n') ∧
        (tail = [] ∨ tail = ['\n']) := by
  rw [torrentTail, dotStarThen_eq_true]
  constructor
  · rintro ⟨m, rest, hr, hm, hend⟩
    rcases (endTail_eq_true _ _).mp hend with h | h
    · exact ⟨m, [], by simp [hr, h], hm, Or.inl rfl⟩
    · exact ⟨m, ['\n'], by simp [hr, h], hm, Or.inr rfl⟩
  · rintro ⟨m, tail, hr, hm, htail⟩
    refine ⟨m, ".torrent".data ++ tail, by simpa using hr, hm, (endTail_eq_true _ _).mpr ?_⟩
    rcases htail with h | h
    · exact Or.inl (by simp [h])
    · exact Or.inr (by simp [h])

theorem torrentMid_eq_true (r : List Char) :
    torrentMid r = true ↔
      ∃ m2 tail, r = "pages-articles-multistream".data ++ m2 ++ ".torrent".data ++ tail ∧
        (∀ c ∈ m2, c ≠ '\n') ∧ (tail = [] ∨ tail = ['\n']) := by
  constructor
  · intro h
    rcases hdrop : dropLit "pages-articles-multistream".data r with _ | r3
    · rw [torrentMid, hdrop] at h; exact absurd h (by simp)
    · rw [torrentMid, hdrop] at h
      rcases (torrentTail_eq_true r3).mp h with ⟨m2, tail, hr3, hm, htail⟩
      exact ⟨m2, tail, by simpa [hr3] using (dropLit_eq_some _ _ _).mp hdrop, hm, htail⟩
  · rintro ⟨m2, tail, hr, hm, htail⟩
    have hdrop : dropLit "pages-articles-multistream".data r =
        some (m2 ++ ".torrent".data ++ tail) :=
      (dropLit_eq_some _ _ _).mpr (by simpa using hr)
    rw [torrentMid, hdrop]
    exact (torrentTail_eq_true _).mpr ⟨m2, tail, rfl, hm, htail⟩

theorem torrentCore_eq_true (cs : List Char) :
    torrentCore cs = true ↔
      ∃ m1 m2 tail,
        cs = "enwiki-".data ++ m1 ++ "pages-articles-multistream".data ++ m2 ++
          ".torrent".data ++ tail ∧
        (∀ c ∈ m1, c ≠ '\n') ∧ (∀ c ∈ m2, c ≠ '\n') ∧ (tail = [] ∨ tail = ['\n']) := by
  constructor
  · intro h
    rcases hdrop : dropLit "enwiki-".data cs with _ | r1
    · rw [torrentCore, hdrop] at h; exact absurd h (by simp)
    · rw [torrentCore, hdrop] at h
      rcases (dotStarThen_eq_true _ _).mp h with ⟨m1, r2, hr1, hm1, hmid⟩
      rcases (torrentMid_eq_true r2).mp hmid with ⟨m2, tail, hr2, hm2, htail⟩
      refine ⟨m1, m2, tail, ?_, hm1, hm2, htail⟩
      have := (dropLit_eq_some _ _ _).mp hdrop
      simp [this, hr1, hr2]
  · rintro ⟨m1, m2, tail, hcs, hm1, hm2, htail⟩
    have hdrop : dropLit "enwiki-".data cs =
        some (m1 ++ "pages-articles-multistream".data ++ m2 ++ ".torrent".data ++ tail) :=
      (dropLit_eq_some _ _ _).mpr (by simpa using hcs)
    rw [torrentCore, hdrop]
    exact (dotStarThen_eq_true _ _).mpr
      ⟨m1, "pages-articles-multistream".data ++ m2 ++ ".torrent".data ++ tail, by simp, hm1,
       (torrentMid_eq_true _).mpr ⟨m2, tail, by simp, hm2, htail⟩⟩

theorem torrentNameSearch_eq_true (s : String) :
    torrentNameSearch s = true ↔
      ∃ pre m1 m2 tail,
        lowerStr s = pre ++ "enwiki-".data ++ m1 ++ "pages-articles-multistream".data ++
          m2 ++ ".torrent".data ++ tail ∧
        (∀ c ∈ m1, c ≠ '\n') ∧ (∀ c ∈ m2, c ≠ '\n') ∧ (tail = [] ∨ tail = ['\n']) := by
  rw [torrentNameSearch, searchFrom_eq_true]
  constructor
  · rintro ⟨pre, r, hs, hcore⟩
    rcases (torrentCore_eq_true r).mp hcore with ⟨m1, m2, tail, hr, hm1, hm2, htail⟩
    exact ⟨pre, m1, m2, tail, by simp [hs, hr], hm1, hm2, htail⟩
  · rintro ⟨pre, m1, m2, tail, hs, hm1, hm2, htail⟩
    refine ⟨pre, "enwiki-".data ++ m1 ++ "pages-articles-multistream".data ++ m2 ++
      ".torrent".data ++ tail, by simpa using hs, ?_⟩
    exact (torrentCore_eq_true _).mpr ⟨m1, m2, tail, by simp, hm1, hm2, htail⟩

/-!  ## The last character accepted by `DUMP_FILE_RE` -/

theorem getLast?_append_some {l r : List Char} {v : Char} (h : r.getLast? = some v) :
    (l ++ r).getLast? = some v := by
  rw [List.getLast?_append, h]; rfl

theorem endTail_bz2_getLast {cs : List Char}
    (h : endTail ".bz2".data cs = true) :
    cs.getLast? = some '2' ∨ cs.getLast? = some '\n' := by
  rcases (endTail_eq_true _ _).mp h with h | h
  · subst h; exact Or.inl (by decide)
  · subst h; exact Or.inr (by decide)

theorem dumpCore_getLast {cs : List Char} (h : dumpCore cs = true) :
    cs.getLast? = some '2' ∨ cs.getLast? = some '\n' := by
  rcases h1 : dropLit "enwiki-".data cs with _ | r1
  · simp [dumpCore, h1] at h
  simp only [dumpCore, h1] at h
  rcases h2 : dropDigits 8 r1 with _ | r2
  · simp [h2] at h
  simp only [h2] at h
  rcases h3 : dropLit "-pages-articles-multistream".data r2 with _ | r3
  · simp [h3] at h
  simp only [h3] at h
  rcases (dotStarThen_eq_true _ _).mp h with ⟨m, rest, hr3, _, hend⟩
  have hcs : cs = "enwiki-".data ++ r1 := (dropLit_eq_some _ _ _).mp h1
  rcases dropDigits_sub 8 r1 r2 h2 with ⟨d, hd⟩
  have hr2 : r2 = "-pages-articles-multistream".data ++ r3 := (dropLit_eq_some _ _ _).mp h3
  have hrest : rest ≠ [] := by
    rcases (endTail_eq_true _ _).mp hend with he | he <;> simp [he]
  have hlast : rest.getLast? = some '2' ∨ rest.getLast? = some '\n' :=
    endTail_bz2_getLast hend
  rw [hcs, hd, hr2, hr3]
  rcases hlast with hl | hl
  · exact Or.inl (getLast?_append_some (getLast?_append_some
      (getLast?_append_some (getLast?_append_some hl))))
  · exact Or.inr (getLast?_append_some (getLast?_append_some
      (getLast?_append_some (getLast?_append_some hl))))

/-- A name that ends in the in-progress marker `.!qB` never matches
`DUMP_FILE_RE`: the pattern forces the subject to end in `.bz2`
(or `.bz2` followed by a final newline), and `B ≠ 2`, `B ≠ \n`. -/
theorem endsWith_qb_not_dumpFileMatch (s : String)
    (h : pyEndsWith s ".!qB" = true) : dumpFileMatch s = false := by
  cases hd : dumpFileMatch s with
  | false => rfl
  | true =>
      exfalso
      have hsuf : ".!qB".data <:+ s.data := of_decide_eq_true h
      rcases hsuf with ⟨t, ht⟩
      have hlastData : s.data.getLast? = some 'B' := by
        rw [← ht]; exact getLast?_append_some (by decide)
      have hlastLower : (lowerStr s).getLast? = some 'b' := by
        rw [lowerStr, List.getLast?_map, hlastData]; rfl
      rcases dumpCore_getLast (hd : dumpCore (lowerStr s) = true) with hl | hl <;>
        rw [hlastLower] at hl <;> exact absurd hl (by decide)

/-!  ## Spec-side predicates for claim C3 -/

/-- Substring containment over character lists. -/
def containsSub (pat cs : List Char) : Bool :=
  searchFrom (fun r => (dropLit pat r).isSome) cs

/-- The selection criterion exactly as claim C3 words it: the href's
*trailing path segment* (its final path component, i.e. everything after
the last `/`) matches, case-insensitively, "enwiki" prefix +
"pages-articles-multistream" substring + ".torrent" suffix. -/
def trailingTorrentMatch (href : String) : Bool :=
  "enwiki".data.isPrefixOf (lowerStr (basename href)) &&
    containsSub "pages-articles-multistream".data (lowerStr (basename href)) &&
    ".torrent".data.isSuffixOf (lowerStr (basename href))

/-- The amended selection criterion: somewhere in the href (not necessarily
within its trailing path segment, so the match may span `/` separators)
there is, case-insensitively, an occurrence of `enwiki-` followed — across
no newline — by `pages-articles-multistream`, followed — across no
newline — by `.torrent` at the very end of the href (or just before a
newline that ends it). -/
def specTorrentSearch (s : String) : Prop :=
  ∃ pre m1 m2 tail,
    lowerStr s = pre ++ "enwiki-".data ++ m1 ++ "pages-articles-multistream".data ++
      m2 ++ ".torrent".data ++ tail ∧
    (∀ c ∈ m1, c ≠ '\n') ∧ (∀ c ∈ m2, c ≠ '\n') ∧ (tail = [] ∨ tail = ['\n'])

/-!  ## Claim theorems -/

/-- Claim C1: for every list of hyperlink hrefs, if at least one matches
`TORRENT_NAME_RE`, `latest_torrent_url` returns the first such href
resolved to an absolute URL (`//…` gets `https:` prepended, `/…` gets
`https://meta.wikimedia.org` prepended, anything else — in particular an
already-absolute href — is returned unchanged); with no match it fails
with the not-found `RuntimeError`. -/
theorem resolverFirstMatch (hrefs : List String) :
    (∀ h, hrefs.find? torrentNameSearch = some h →
      latest_torrent_url hrefs = .ok
        (if pyStartsWith h "//" then "https:" ++ h
         else if pyStartsWith h "/" then "https://meta.wikimedia.org" ++ h
         else h)) ∧
    (hrefs.find? torrentNameSearch = none →
      latest_torrent_url hrefs = .error noLinkMsg) := by
  induction hrefs with
  | nil => exact ⟨fun h hf => by simp [List.find?] at hf, fun _ => rfl⟩
  | cons a rest ih =>
      constructor
      · intro h hf
        by_cases ha : torrentNameSearch a = true
        · rw [List.find?_cons_of_pos _ ha] at hf
          injection hf with hf
          subst hf
          simp [latest_torrent_url, ha]
        · rw [List.find?_cons_of_neg _ ha] at hf
          simp [latest_torrent_url, ha, ih.1 h hf]
      · intro hf
        by_cases ha : torrentNameSearch a = true
        · rw [List.find?_cons_of_pos _ ha] at hf; cases hf
        · rw [List.find?_cons_of_neg _ ha] at hf
          simp [latest_torrent_url, ha, ih.2 hf]

/-- Witness for C1 at a concrete page: the second href matches, the first
does not, and the protocol-relative href is resolved with `https:`. -/
theorem resolverFirstMatch_wit :
    latest_torrent_url ["x", "//d/enwiki-1-pages-articles-multistream.torrent"] =
      .ok "https://d/enwiki-1-pages-articles-multistream.torrent" :=
  (resolverFirstMatch ["x", "//d/enwiki-1-pages-articles-multistream.torrent"]).1
    "//d/enwiki-1-pages-articles-multistream.torrent" rfl

/-- Claim C2: the pruner deletes exactly the direct children that are
regular files, match `DUMP_FILE_RE`, do not end in the in-progress marker
`.!qB`, and have mtime strictly before `now − keepDays` days; every other
child is retained, and the number of removed files is the logged count. -/
theorem prunerDeletesExactly (now keepDays : Int) (entries : List DirEntry) :
    (prune_old_dumps now keepDays entries).1 =
      entries.filter (fun e => !(e.isRegularFile && dumpFileMatch e.name &&
        !(pyEndsWith e.name ".!qB") && decide (e.mtime < now - keepDays * 86400))) ∧
    (prune_old_dumps now keepDays entries).2 =
      (entries.filter (fun e => e.isRegularFile && dumpFileMatch e.name &&
        !(pyEndsWith e.name ".!qB") && decide (e.mtime < now - keepDays * 86400))).length := by
  have key : ∀ es : List DirEntry, pruneGo (now - keepDays * 86400) es =
      ((es.filter fun e => !shouldPrune (now - keepDays * 86400) e),
       (es.filter fun e => shouldPrune (now - keepDays * 86400) e).length) := by
    intro es
    induction es with
    | nil => rfl
    | cons e rest ih =>
        simp only [pruneGo, ih, List.filter]
        cases hsp : shouldPrune (now - keepDays * 86400) e <;> simp [hsp]
  exact ⟨by rw [prune_old_dumps, key]; rfl, by rw [prune_old_dumps, key]; rfl⟩

/-- Claim C8: a filename ending in `.!qB` can never match `DUMP_FILE_RE`
(which forces a `.bz2` ending, up to a final newline), so the pruner's
explicit in-progress branch is unreachable: removing it leaves the pruner's
behavior unchanged on every input. -/
theorem inProgressBranchUnreachable :
    (∀ s : String, pyEndsWith s ".!qB" = true → dumpFileMatch s = false) ∧
    (∀ (now keepDays : Int) (entries : List DirEntry),
      pruneGoNoQb (now - keepDays * 86400) entries =
        prune_old_dumps now keepDays entries) := by
  refine ⟨endsWith_qb_not_dumpFileMatch, ?_⟩
  intro now keepDays entries
  rw [prune_old_dumps]
  induction entries with
  | nil => rfl
  | cons e rest ih =>
      have hcond : (e.isRegularFile && dumpFileMatch e.name &&
          decide (e.mtime < now - keepDays * 86400)) =
          shouldPrune (now - keepDays * 86400) e := by
        unfold shouldPrune
        cases hd : dumpFileMatch e.name with
        | false => simp
        | true =>
            have hq : pyEndsWith e.name ".!qB" = false := by
              cases hq : pyEndsWith e.name ".!qB" with
              | false => rfl
              | true => rw [endsWith_qb_not_dumpFileMatch e.name hq] at hd; cases hd
            simp [hq]
      simp only [pruneGo, pruneGoNoQb, ih, hcond]

/-- Witness for C8: the spec's own forty-day-old in-progress file is
rejected by the filename pattern alone. -/
theorem inProgressBranchUnreachable_wit :
    dumpFileMatch "enwiki-20240101-pages-articles-multistream1.xml.bz2.!qB" = false :=
  inProgressBranchUnreachable.1 "enwiki-20240101-pages-articles-multistream1.xml.bz2.!qB"
    (by decide)

/-- Claim C3 (counterexample): this href is selected by
`TORRENT_NAME_RE.search` although its trailing path segment `foo.torrent`
does not match the claimed filename pattern — the regex match spans three
path segments — so selection is not equivalent to a trailing-segment
match. -/
theorem torrentFilterTrailing_cex :
    torrentNameSearch "/enwiki-x/pages-articles-multistream/foo.torrent" = true ∧
    trailingTorrentMatch "/enwiki-x/pages-articles-multistream/foo.torrent" = false :=
  ⟨by decide, by decide⟩

/-- Claim C3 (amended): the Link Resolver selects an href iff,
case-insensitively, the href contains `enwiki-` followed (across no
newline, but possibly across `/` separators) by
`pages-articles-multistream` followed (across no newline) by `.torrent` at
the end of the href (or just before a newline ending it). -/
theorem torrentFilter_amended (s : String) :
    torrentNameSearch s = true ↔ specTorrentSearch s :=
  torrentNameSearch_eq_true s

/-- Claim C4 (counterexample): a `304` response is not 2xx, yet
`download_torrent` succeeds on it (`requests.raise_for_status` raises only
for 4xx/5xx), so "fails exactly when the status is non-2xx" is false. -/
theorem fetchNon2xx_cex :
    ¬(200 ≤ 304 ∧ 304 < 300) ∧
    (download_torrent "/tmp" "https://h/a.torrent" ⟨304, "B"⟩ (fun _ => none)).2 =
      .ok "/tmp/a.torrent" :=
  ⟨by decide, rfl⟩

/-- Claim C4 (amended): `download_torrent` fails exactly when the response
status is 4xx or 5xx; on any other status it writes the full body to the
temp-directory file named after the URL's final path segment (overwriting
whatever was there), leaves every other path untouched, and returns that
path. -/
theorem fetchStatusBehavior (tmp url : String) (resp : HttpResponse) (fs : Fs) :
    (400 ≤ resp.status ∧ resp.status < 600 →
      (download_torrent tmp url resp fs).2 = .error "HTTPError") ∧
    (¬(400 ≤ resp.status ∧ resp.status < 600) →
      (download_torrent tmp url resp fs).2 = .ok (tmp ++ "/" ++ basename url) ∧
      (download_torrent tmp url resp fs).1 (tmp ++ "/" ++ basename url) =
        some resp.body ∧
      ∀ p, p ≠ tmp ++ "/" ++ basename url →
        (download_torrent tmp url resp fs).1 p = fs p) := by
  unfold download_torrent
  constructor
  · intro h; simp [h]
  · intro h
    refine ⟨by simp [h], by simp [h], fun p hp => ?_⟩
    simp [h, hp]

/-- Witness for C4 (amended): a 404 fails, a 200 succeeds and returns the
path in the temp directory. -/
theorem fetchStatusBehavior_wit :
    (download_torrent "/tmp" "https://h/a.torrent" ⟨404, "B"⟩ (fun _ => some "OLD")).2 =
        .error "HTTPError" ∧
    (download_torrent "/tmp" "https://h/a.torrent" ⟨200, "BODY"⟩ (fun _ => some "OLD")).2 =
        .ok "/tmp/a.torrent" :=
  ⟨(fetchStatusBehavior "/tmp" "https://h/a.torrent" ⟨404, "B"⟩ (fun _ => some "OLD")).1
      (by decide),
   ((fetchStatusBehavior "/tmp" "https://h/a.torrent" ⟨200, "BODY"⟩
      (fun _ => some "OLD")).2 (by decide)).1⟩

/-- Claim C9: the destination file is opened in `"wb"` mode (truncating any
pre-existing file) before `raise_for_status` runs, so whenever the fetch
fails on a non-2xx response, the file at the temp path has already been
overwritten — here truncated to empty, since the error is raised before
any chunk is written: the fetch is not atomic on error. -/
theorem fetchTruncatesBeforeStatus (tmp url : String) (resp : HttpResponse) (fs : Fs)
    (_hno2xx : ¬(200 ≤ resp.status ∧ resp.status < 300)) :
    ∀ e, (download_torrent tmp url resp fs).2 = Except.error e →
      (download_torrent tmp url resp fs).1 (tmp ++ "/" ++ basename url) = some "" := by
  unfold download_torrent
  intro e
  by_cases h : 400 ≤ resp.status ∧ resp.status < 600
  · intro _; simp [h]
  · simp [h]

/-- Witness for C9: a 404 destroys the pre-existing file at the temp
path. -/
theorem fetchTruncatesBeforeStatus_wit :
    (download_torrent "/tmp" "https://h/a.torrent" ⟨404, "B"⟩
      (fun p => if p = "/tmp/a.torrent" then some "OLD" else none)).1
      "/tmp/a.torrent" = some "" :=
  fetchTruncatesBeforeStatus "/tmp" "https://h/a.torrent" ⟨404, "B"⟩
    (fun p => if p = "/tmp/a.torrent" then some "OLD" else none) (by decide)
    "HTTPError" rfl

/-- Claim C5: when authentication fails, `push_to_qb` propagates the login
error, no `torrents_add` call appears in the trace, and the whole state
(directories and remote jobs) is unchanged. -/
theorem authFailureNoJobAdd (auth : Bool) (torrentPath saveDir category : String)
    (st : QbState) (hauth : auth = false) :
    (push_to_qb auth torrentPath saveDir category st).2.2 = .error "LoginFailed" ∧
    (∀ t s c, QbCall.torrentsAdd t s c ∉
      (push_to_qb auth torrentPath saveDir category st).2.1) ∧
    (push_to_qb auth torrentPath saveDir category st).1 = st := by
  subst hauth
  refine ⟨rfl, ?_, rfl⟩
  intro t s c
  simp [push_to_qb]

/-- Witness for C5 at concrete credentials and state. -/
theorem authFailureNoJobAdd_wit :
    (push_to_qb false "/tmp/a.torrent" "/mnt/wiki/enwiki" "wikipedia" ⟨[], []⟩).2.2 =
      .error "LoginFailed" :=
  (authFailureNoJobAdd false "/tmp/a.torrent" "/mnt/wiki/enwiki" "wikipedia"
    ⟨[], []⟩ rfl).1

/-- Claim C6: when authentication succeeds and the save directory does not
exist, `push_to_qb` creates it together with every missing parent, and the
`mkdir` call strictly precedes the `torrents_add` call in the trace. -/
theorem missingSaveDirCreated (auth : Bool) (torrentPath saveDir category : String)
    (st : QbState) (hauth : auth = true) (hmiss : saveDir ∉ st.dirs) :
    (push_to_qb auth torrentPath saveDir category st).2.1 =
      [QbCall.authLogIn, QbCall.mkdirParents saveDir,
       QbCall.torrentsAdd torrentPath saveDir category] ∧
    ∀ a ∈ ancestors saveDir,
      a ∈ (push_to_qb auth torrentPath saveDir category st).1.dirs := by
  subst hauth
  constructor
  · simp [push_to_qb, hmiss]
  · intro a ha
    simp [push_to_qb, hmiss]
    by_cases h : a ∈ st.dirs <;> simp_all

/-- Witness for C6: with no directory existing, `/mnt/wiki/enwiki` and its
parents are all created and the trace is login, mkdir, add. -/
theorem missingSaveDirCreated_wit :
    (push_to_qb true "/tmp/a.torrent" "/mnt/wiki/enwiki" "wikipedia" ⟨[], []⟩).2.1 =
      [QbCall.authLogIn, QbCall.mkdirParents "/mnt/wiki/enwiki",
       QbCall.torrentsAdd "/tmp/a.torrent" "/mnt/wiki/enwiki" "wikipedia"] :=
  (missingSaveDirCreated true "/tmp/a.torrent" "/mnt/wiki/enwiki" "wikipedia"
    ⟨[], []⟩ rfl (by simp)).1

/-- Claim C10: when the save directory already exists, `push_to_qb` makes
no directory-creation call and the directory structure is unchanged. -/
theorem existingSaveDirNoMkdir (auth : Bool) (torrentPath saveDir category : String)
    (st : QbState) (hauth : auth = true) (hdir : saveDir ∈ st.dirs) :
    (∀ p, QbCall.mkdirParents p ∉
      (push_to_qb auth torrentPath saveDir category st).2.1) ∧
    (push_to_qb auth torrentPath saveDir category st).1.dirs = st.dirs := by
  subst hauth
  constructor
  · intro p; simp [push_to_qb, hdir]
  · simp [push_to_qb, hdir]

/-- Witness for C10 at a concrete existing directory. -/
theorem existingSaveDirNoMkdir_wit :
    (push_to_qb true "/tmp/a.torrent" "/mnt/wiki/enwiki" "wikipedia"
      ⟨["/mnt/wiki/enwiki"], []⟩).1.dirs = ["/mnt/wiki/enwiki"] :=
  (existingSaveDirNoMkdir true "/tmp/a.torrent" "/mnt/wiki/enwiki" "wikipedia"
    ⟨["/mnt/wiki/enwiki"], []⟩ rfl (by simp)).2

/-- Claim C7: `main` runs resolver, fetcher, submitter, pruner strictly in
that order; a failing stage aborts all later stages and its error is
caught, logged and turned into exit code 1, while a fully successful run
executes all four stages and exits 0. -/
theorem mainStagePipeline (w : World) (tmp saveDir category : String) (retention : Int) :
    (∀ e, latest_torrent_url w.hrefs = .error e →
      mainRun w tmp saveDir category retention = ⟨1, [Stage.resolver], some e⟩) ∧
    (∀ url e, latest_torrent_url w.hrefs = .ok url →
      (download_torrent tmp url (w.resp url) w.tmpFs).2 = .error e →
      mainRun w tmp saveDir category retention =
        ⟨1, [Stage.resolver, Stage.fetcher], some e⟩) ∧
    (∀ url tp e, latest_torrent_url w.hrefs = .ok url →
      (download_torrent tmp url (w.resp url) w.tmpFs).2 = .ok tp →
      (push_to_qb w.authOk tp saveDir category w.qb).2.2 = .error e →
      mainRun w tmp saveDir category retention =
        ⟨1, [Stage.resolver, Stage.fetcher, Stage.submitter], some e⟩) ∧
    (∀ url tp, latest_torrent_url w.hrefs = .ok url →
      (download_torrent tmp url (w.resp url) w.tmpFs).2 = .ok tp →
      (push_to_qb w.authOk tp saveDir category w.qb).2.2 = .ok () →
      mainRun w tmp saveDir category retention =
        ⟨0, [Stage.resolver, Stage.fetcher, Stage.submitter, Stage.pruner], none⟩) := by
  refine ⟨?_, ?_, ?_, ?_⟩
  · intro e h1; simp [mainRun, h1]
  · intro url e h1 h2; simp [mainRun, h1, h2]
  · intro url tp e h1 h2 h3; simp [mainRun, h1, h2, h3]
  · intro url tp h1 h2 h3; simp [mainRun, h1, h2, h3]

/-- Witness for C7: a run in which every stage succeeds executes all four
stages in order and exits 0. -/
theorem mainStagePipeline_wit :
    mainRun
      ⟨["//d/enwiki-1-pages-articles-multistream.torrent"], fun _ => ⟨200, "B"⟩,
        fun _ => none, true, ⟨["/mnt/wiki/enwiki"], []⟩, [], 0⟩
      "/tmp" "/mnt/wiki/enwiki" "wikipedia" 30 =
      ⟨0, [Stage.resolver, Stage.fetcher, Stage.submitter, Stage.pruner], none⟩ :=
  (mainStagePipeline
      ⟨["//d/enwiki-1-pages-articles-multistream.torrent"], fun _ => ⟨200, "B"⟩,
        fun _ => none, true, ⟨["/mnt/wiki/enwiki"], []⟩, [], 0⟩
      "/tmp" "/mnt/wiki/enwiki" "wikipedia" 30).2.2.2
    "https://d/enwiki-1-pages-articles-multistream.torrent"
    "/tmp/enwiki-1-pages-articles-multistream.torrent" rfl rfl rfl

end WikidumpAuto
